import Mathlib

/-!
Shallow embedding of the aelf-block-scan scanner core (`src/index.js`) and
proofs about its specification.

Conventions of the embedding:
* Block heights are natural numbers (the source parses them with `parseInt`).
* Block and transaction payloads are opaque; we keep a `payload : Nat` field so
  that records at equal heights are still distinguishable.
* The chain-status collaborator is a function `Nat → Nat × Nat` giving the
  `(LIBHeight, bestHeight)` answer of the k-th `getHeight` call of a phase.
* The per-height query collaborator is a function from a height to the
  block/transactions it returns.
* JavaScript `null` fields (`lastBestHeight`) become `Option Nat`; arithmetic
  that JavaScript performs on possibly-negative numbers is done in `Int` and
  then clamped exactly where the source clamps it.
-/

namespace AelfScan

/-- A block record; the core only inspects its height (`block.Header.Height`,
parsed as an integer).  The payload stands for the rest of the opaque record. -/
structure Block where
  height : Nat
  payload : Nat
deriving Repr, DecidableEq

/-- `{blocks, txs}` as produced by `queryAllBlocksAndTxs` / consumed by
`mergeResult`.  `txs i` is the transaction list belonging to `blocks i`.
The opaque `type` tag of the source is not inspected by any claim and is
omitted. -/
structure FetchResult where
  blocks : List Block
  txs : List (List Nat)
deriving Repr, DecidableEq

/-- Chunking of a height list by the `for (i; i < len; i += limit)` /
`slice(i, i + limit)` pattern used by both batch fetchers.  A `limit` of `0`
would not terminate in the source; the embedding returns `[]` in that case and
all theorems assume `0 < limit`. -/
def chunksOf (limit : Nat) : List α → List (List α)
  | [] => []
  | a :: rest =>
    if h : limit = 0 then []
    else (a :: rest).take limit :: chunksOf limit ((a :: rest).drop limit)
termination_by l => l.length
decreasing_by
  have hlim : 0 < limit := Nat.pos_of_ne_zero h
  simp [List.length_drop]
  omega

/-- `queryAllBlocksAndTxs` (ALL mode): chunk the heights by
`concurrentQueryLimit`, query every height of a chunk (concurrently in the
source) and the chunks strictly one after another, then flatten the chunk
results in order and split them into the `blocks` and `txs` columns. -/
def queryAllBlocksAndTxs (q : Nat → Block × List Nat) (limit : Nat)
    (heights : List Nat) : FetchResult :=
  let flat := ((chunksOf limit heights).map (fun c => c.map q)).flatten
  { blocks := flat.map Prod.fst, txs := flat.map Prod.snd }

/-- The retained pairs of `mergeResult`: the source walks
`lastLoopResult.blocks` with `forEach((block, index) => ...)` and pushes
`block` together with `lastLoopResult.txs[index]` whenever
`LIBHeight < block.height ≤ lastBestHeight`.  The embedding walks the two
lists in lockstep; a missing `txs[index]` (JavaScript `undefined`) becomes the
default `[]`. -/
def keptPairs (LIBHeight lastBestHeight : Nat) :
    List Block → List (List Nat) → List (Block × List Nat)
  | [], _ => []
  | b :: bs, txs =>
    let rest := keptPairs LIBHeight lastBestHeight bs txs.tail
    if LIBHeight < b.height ∧ b.height ≤ lastBestHeight then
      (b, txs.headD []) :: rest
    else rest

/-- `Scanner#mergeResult(results, preHeightsLength, afterHeightsLength,
LIBHeight, lastBestHeight)`, with `this.lastLoopResult` passed explicitly.
`afterHeightsLength` is accepted and ignored exactly as in the source. -/
def mergeResult (lastLoopResult results : FetchResult)
    (preHeightsLength afterHeightsLength : Nat)
    (LIBHeight lastBestHeight : Nat) : FetchResult :=
  if lastLoopResult.blocks.length = 0 then results
  else
    let preResultBlocks := results.blocks.take preHeightsLength
    let afterResultBlocks := results.blocks.drop preHeightsLength
    let preResultTxs := results.txs.take preHeightsLength
    let afterResultTxs := results.txs.drop preHeightsLength
    let kept := keptPairs LIBHeight lastBestHeight
      lastLoopResult.blocks lastLoopResult.txs
    { blocks := preResultBlocks ++ kept.map Prod.fst ++ afterResultBlocks,
      txs := preResultTxs ++ kept.map Prod.snd ++ afterResultTxs }

/-! ## The MISSING phase (`queryMissingHeight`)

`for (let i = 0; i <= missingHeightList.length; i += maxInsert)` — note the
inclusive bound — takes `slice(i, i + maxInsert)` chunks.  The loop runs for
`i = 0, m, 2m, …` while `i ≤ L`, i.e. `⌊L/m⌋ + 1` times, and when `m ∣ L` the
final slice is empty. -/

/-- The chunk of `queryMissingHeight`'s `k`-th iteration: `slice(k*m, k*m+m)`. -/
def missingChunks (m : Nat) (l : List α) : List (List α) :=
  (List.range (l.length / m + 1)).map (fun k => (l.drop (k * m)).take m)

/-- `queryMissingHeight`: the sequence of `FetchResult`s passed to
`dbOperator.insert`, one per chunk, in chunk order (the source awaits each
insert before fetching the next chunk). -/
def queryMissingHeight (q : Nat → Block × List Nat) (limit m : Nat)
    (missingHeightList : List Nat) : List FetchResult :=
  (missingChunks m missingHeightList).map (queryAllBlocksAndTxs q limit)

/-! ## The GAP phase (`queryGapHeight`)

The chain-status oracle is `statuses : Nat → Nat × Nat`; `statuses k` is the
`(LIBHeight, bestHeight)` answer of the phase's `k`-th `getHeight()` call.
The source's `for` loop refreshes its bound from the oracle after every chunk,
so it has no structural termination measure; the embedding takes a fuel
argument and returns `none` when the fuel runs out. -/

/-- One inserted chunk of the GAP phase, with the `LIBHeight`/`bestHeight`
tags the source assigns onto the `FetchResult` before inserting it. -/
structure GapChunk where
  heights : List Nat
  LIBHeight : Nat
  bestHeight : Nat
deriving Repr, DecidableEq

/-- Observable outcome of `queryGapHeight`: the inserted chunks in order and
the `currentQueries` / `lastBestHeight` fields after the phase. -/
structure GapOutcome where
  chunks : List GapChunk
  currentQueries : Nat
  lastBestHeight : Option Nat
deriving Repr, DecidableEq

/-- The body of `queryGapHeight`'s `for` loop.  State: `i` (loop counter),
`cur` (`currentHeight`, the most recently read LIB height), `k` (index of the
next `getHeight` call).  `b0` is the `bestHeight` destructured once at phase
entry — the source never refreshes it.  The loop guard is
`i <= leftHeights = cur - startHeight` on JavaScript numbers, hence `Int`. -/
def gapLoop (statuses : Nat → Nat × Nat) (startHeight m b0 : Nat) :
    Nat → Nat → Nat → Nat → Option (List GapChunk × Nat)
  | 0, _, _, _ => none
  | fuel + 1, i, cur, k =>
    if (i : Int) ≤ (cur : Int) - (startHeight : Int) then
      let maxInsertHeights :=
        ((List.range m).map (fun idx => startHeight + i + idx)).filter
          (fun v => v ≤ cur)
      match gapLoop statuses startHeight m b0 fuel (i + m) (statuses k).1 (k + 1) with
      | none => none
      | some (cs, fin) => some (⟨maxInsertHeights, cur, b0⟩ :: cs, fin)
    else some ([], cur)

/-- `queryGapHeight`, as the sequence of inserted chunks plus the cursor
fields it leaves behind.  On the early return (`LIBHeight ≤ startHeight`) the
cursor fields keep their `makeConfig` values: `currentQueries = startHeight`,
`lastBestHeight = null`. -/
def queryGapHeight (statuses : Nat → Nat × Nat) (startHeight m fuel : Nat) :
    Option GapOutcome :=
  let l0 := (statuses 0).1
  let b0 := (statuses 0).2
  if l0 ≤ startHeight then some ⟨[], startHeight, none⟩
  else
    match gapLoop statuses startHeight m b0 fuel 0 l0 1 with
    | none => none
    | some (cs, fin) => some ⟨cs, fin, some b0⟩

/-! ## LISTENER mode (`queryBlockAndTxsWithBloom`) -/

/-- A block in LISTENER mode: the query collaborator annotates it with its
`scanTags` membership list.  Tags are modelled as naturals. -/
structure LBlock where
  height : Nat
  scanTags : List Nat
  payload : Nat
deriving Repr, DecidableEq

/-- A transaction in LISTENER mode, annotated with `scanTags`. -/
structure LTx where
  scanTags : List Nat
  payload : Nat
deriving Repr, DecidableEq

/-- A block pushed into a listener bucket: the block spread together with
`transactionList`, the transactions matching the bucket's tag. -/
structure TaggedBlock where
  block : LBlock
  transactionList : List LTx
deriving Repr, DecidableEq

/-- The `tagsObj` accumulator: one bucket per listener tag, in listener
order (a JavaScript object keyed by tag; the configuration validates tags to
be distinct in LISTENER mode). -/
abbrev Buckets := List (Nat × List TaggedBlock)

/-- `acc[tag].blocks.push(tb)`: append to the bucket of `tag`.  If `tag` is
not a key of the accumulator the source dereferences `undefined` and throws
(`acc[tag].blocks` on a missing key); the embedding returns `none` there. -/
def pushTag (tag : Nat) (tb : TaggedBlock) : Buckets → Option Buckets
  | [] => none
  | (t, bs) :: rest =>
    if t = tag then some ((t, bs ++ [tb]) :: rest)
    else (pushTag tag tb rest).map (fun r => (t, bs) :: r)

/-- Process one fetched `{block, transactions}`: for every tag in the block's
`scanTags`, push the block annotated with the transactions whose `scanTags`
include that tag. -/
def pushBlock (b : LBlock) (transactions : List LTx) (acc : Buckets) :
    Option Buckets :=
  b.scanTags.foldlM
    (fun acc tag =>
      pushTag tag ⟨b, transactions.filter (fun tx => tag ∈ tx.scanTags)⟩ acc)
    acc

/-- The bucket-building `reduce` of `queryBlockAndTxsWithBloom`: start from
one empty bucket per listener tag, drop fetch results without a block
(`filter(v => v && v.block)`), and fold `pushBlock` over the rest. -/
def bloomBuckets (tags : List Nat)
    (results : List (Option (LBlock × List LTx))) : Option Buckets :=
  (results.filterMap id).foldlM
    (fun acc r => pushBlock r.1 r.2 acc)
    (tags.map (fun t => (t, ([] : List TaggedBlock))))

/-- `queryBlockAndTxsWithBloom`: fetch the heights in chunks of at most
`concurrentQueryLimit`, then partition into per-tag buckets.  Also returns
the `largestHeight` field the source computes. -/
def queryBlockAndTxsWithBloom (q : Nat → Option (LBlock × List LTx))
    (limit : Nat) (tags : List Nat) (startHeight : Nat)
    (heights : List Nat) : Option (Nat × Buckets) :=
  let results := ((chunksOf limit heights).map (fun c => c.map q)).flatten
  (bloomBuckets tags results).map
    (fun bks => (heights.getLastD (startHeight - 1), bks))

/-- The bucket entry of `r = (block, transactions)` for tag `u`: the block
annotated with the transactions whose `scanTags` include `u`. -/
def taggedFor (u : Nat) (r : LBlock × List LTx) : TaggedBlock :=
  ⟨r.1, r.2.filter (fun tx => u ∈ tx.scanTags)⟩

/-- The expected content of tag `u`'s bucket over the fetched results `rs`:
exactly the blocks whose `scanTags` include `u`, in fetch order, each
annotated by `taggedFor`. -/
def bucketFor (u : Nat) (rs : List (LBlock × List LTx)) : List TaggedBlock :=
  (rs.filter (fun r => u ∈ r.1.scanTags)).map (taggedFor u)

/-! ## Configuration validation (`makeConfig`) -/

/-- `scanMode`, value can be `all` or `listener`. -/
inductive ScanMode
  | all
  | listener
deriving Repr, DecidableEq

/-- The duplicate-listener-tag check of `makeConfig`:
`scanMode === 'listener' && Array.from(new Set(listeners.map(v => v.tag))).length < listeners.length`
— `true` iff construction throws `duplicated listener names are not allowed`.
`dedup.length` equals the size of the JavaScript `Set` (the number of distinct
tags). -/
def makeConfigThrowsDuplicate (scanMode : ScanMode) (tags : List Nat) : Bool :=
  scanMode == .listener && tags.dedup.length < tags.length

/-! ## The polling loop (`queryInLoop`) -/

/-- The tuning parameters of the loop read from the configuration. -/
structure LoopConfig where
  interval : Nat
  minedSpeed : Nat
  loopCoefNum : Nat
  loopCoefDen : Nat
  concurrentQueryLimit : Nat
deriving Repr, DecidableEq

/-- `Math.ceil(interval * minedSpeed * loopCoef / 1000)` with
`loopCoef = loopCoefNum / loopCoefDen`, as a ceiling division on naturals.
For the default configuration (`4000`, `2`, `0.6`) this agrees with the
source's floating-point computation. -/
def loopThreshold (c : LoopConfig) : Nat :=
  (c.interval * c.minedSpeed * c.loopCoefNum + (1000 * c.loopCoefDen - 1)) /
    (1000 * c.loopCoefDen)

/-- The loop cursor fields of the `Scanner` object. `lastBestHeight` is
`null` before the first assignment. -/
structure LoopState where
  currentQueries : Nat
  lastBestHeight : Option Nat
  lastLoopResult : FetchResult
deriving Repr, DecidableEq

/-- The cursor state right after `makeConfig`. -/
def initLoopState (startHeight : Nat) : LoopState :=
  { currentQueries := startHeight, lastBestHeight := none,
    lastLoopResult := { blocks := [], txs := [] } }

/-- JavaScript truthiness of `this.lastBestHeight`: `null` and `0` are
falsy. -/
def jsTruthyHeight : Option Nat → Bool
  | none => false
  | some n => n != 0

/-- The skip guard of the tick callback:
`this.lastBestHeight && currentHeight - this.lastBestHeight <= Math.ceil(...)`.
The subtraction is on JavaScript numbers, hence `Int` (a `null`
`lastBestHeight` short-circuits before the subtraction). -/
def skipCond (c : LoopConfig) (st : LoopState) (currentHeight : Nat) : Bool :=
  jsTruthyHeight st.lastBestHeight &&
    decide ((currentHeight : Int) - (st.lastBestHeight.getD 0 : Nat) ≤
      (loopThreshold c : Int))

/-- One tick of the polling loop in ALL mode, given the status answer
`(LIBHeight, currentHeight)` of this tick's `getHeight()`.  Returns the new
cursor state, the list of heights handed to the batch fetcher, and the
`FetchResult` passed to `dbOperator.insert` (`none` when the tick was
skipped).  `Math.max(null, LIBHeight)` coerces `null` to `0`, hence the
`getD 0`. -/
def loopTick (c : LoopConfig) (q : Nat → Block × List Nat) (st : LoopState)
    (LIBHeight currentHeight : Nat) :
    LoopState × List Nat × Option FetchResult :=
  if skipCond c st currentHeight then (st, [], none)
  else
    let heightsLength : Int := (currentHeight : Int) - (st.currentQueries : Int)
    let len : Nat := if heightsLength < 0 then 0 else heightsLength.toNat
    let heights := (List.range len).map
      (fun index => st.currentQueries + index + 1)
    let LIBHeights := heights.filter (fun h => h ≤ LIBHeight)
    let bestHeights := heights.filter
      (fun h => max (st.lastBestHeight.getD 0) LIBHeight < h)
    let fetched := LIBHeights ++ bestHeights
    let loopHeightsResult := queryAllBlocksAndTxs q c.concurrentQueryLimit fetched
    let merged := mergeResult st.lastLoopResult loopHeightsResult
      LIBHeights.length bestHeights.length LIBHeight (st.lastBestHeight.getD 0)
    ({ currentQueries := LIBHeight, lastBestHeight := some currentHeight,
       lastLoopResult := merged },
     fetched, some merged)

/-! ## Phase state machine and the fatal-error path (`start`)

`start()` wraps `init → MISSING → GAP → LOOP-setup` in one `try`; its `catch`
sets `currentPhase = ERROR`, calls `scheduler.endTimer()` once, calls
`dbOperator.destroy()` once and re-throws.  `queryInLoop` itself only installs
the scheduler callback and starts the timer, so `start()`'s promise resolves
as soon as the timer is started: a failure thrown inside a later scheduler
tick happens after the `try` block has completed and cannot reach the
`catch` (and the tick callback contains no handler of its own).  The
scheduler collaborator is not part of the sources; per its contract (§4.5 of
the spec) it only invokes the installed callback on an interval and offers
`endTimer()`. -/

inductive ScanPhase
  | INIT
  | MISSING
  | GAP
  | LOOP
  | ERROR
deriving Repr, DecidableEq

/-- Where a collaborator failure is injected into a run. -/
inductive FailPoint
  | never
  | duringMissing
  | duringGap
  | duringLoopSetup
deriving Repr, DecidableEq

/-- Failure injected into one scheduler tick of the LOOP phase:
at `getHeight()`, at the batch fetch, or at `dbOperator.insert`. -/
inductive TickFailure
  | fNone
  | fGetHeight
  | fFetch
  | fInsert
deriving Repr, DecidableEq

/-- Scanner-level observable state: the phase, how often the scheduler's
`endTimer` and the sink's `destroy` have been called, the loop cursor, and
whether a failure has been re-raised to the caller of `start()`. -/
structure SysState where
  phase : ScanPhase
  endTimerCalls : Nat
  destroyCalls : Nat
  loop : LoopState
  startRaised : Bool
deriving Repr, DecidableEq

/-- The `try` body of `start()` up to and including `queryInLoop`'s
synchronous part: advance the phase marker before each step and stop at the
first injected failure. -/
def startBody (failAt : FailPoint) : ScanPhase × Bool :=
  let p := ScanPhase.MISSING
  if failAt = .duringMissing then (p, true)
  else
    let p := ScanPhase.GAP
    if failAt = .duringGap then (p, true)
    else
      let p := ScanPhase.LOOP
      if failAt = .duringLoopSetup then (p, true)
      else (p, false)

/-- `start()` to the point where its promise settles: on a failure in the
`try` body the `catch` runs (`phase := ERROR`, one `endTimer()`, one
`destroy()`, re-throw); otherwise the phase is `LOOP`, the timer is running
and nothing was raised. -/
def startRun (startHeight : Nat) (failAt : FailPoint) : SysState :=
  match startBody failAt with
  | (_, true) =>
    { phase := .ERROR, endTimerCalls := 1, destroyCalls := 1,
      loop := initLoopState startHeight, startRaised := true }
  | (p, false) =>
    { phase := p, endTimerCalls := 0, destroyCalls := 0,
      loop := initLoopState startHeight, startRaised := false }

/-- One scheduler tick over the scanner state, with an injected failure.
The callback (source lines 169–212) contains no `try`/`catch`, never writes
`currentPhase`, and never calls `endTimer`/`destroy`; cursor mutations happen
only after a successful insert.  The second component reports whether the
callback threw (the rejection is unobservable to `start()`'s caller, whose
promise has already resolved). -/
def runTick (c : LoopConfig) (q : Nat → Block × List Nat) (f : TickFailure)
    (s : SysState) (LIBHeight currentHeight : Nat) : SysState × Bool :=
  match f with
  | .fGetHeight => (s, true)
  | .fFetch =>
    if skipCond c s.loop currentHeight then (s, false) else (s, true)
  | .fInsert =>
    if skipCond c s.loop currentHeight then (s, false) else (s, true)
  | .fNone =>
    ({ s with loop := (loopTick c q s.loop LIBHeight currentHeight).1 }, false)

/-- A whole run: `start()` settles first; if it resolved (phase `LOOP`), the
scheduler then fires the given ticks, each with its status answer and
injected failure. -/
def systemRun (startHeight : Nat) (c : LoopConfig)
    (q : Nat → Block × List Nat) (failAt : FailPoint)
    (ticks : List (TickFailure × Nat × Nat)) : SysState :=
  let s := startRun startHeight failAt
  if s.startRaised then s
  else ticks.foldl
    (fun s t => (runTick c q t.1 s t.2.1 t.2.2).1) s

/-- A concrete query collaborator used by witnesses: the block at height `h`
has payload `h + 100` and a single transaction `h`. -/
def qW : Nat → Block × List Nat := fun h => (⟨h, h + 100⟩, [h])

/-- Chain-status oracle of the C2 failing run: the first `getHeight()`
answers `(LIB 2, best 10)`, every later one `(LIB 7, best 20)` — the LIB
height is non-decreasing, as the chain guarantees. -/
def statusesC2 : Nat → Nat × Nat := fun k => if k = 0 then (2, 10) else (7, 20)

/-- Chain-status oracle of the C5 counterexample: the best height moves from
`10` to `20` after the first read while the LIB height stays at `4`. -/
def statusesC5 : Nat → Nat × Nat := fun k => if k = 0 then (4, 10) else (4, 20)

/-- A constant chain-status oracle (LIB `3`, best `8`) used by the C5
witness. -/
def statusesW5 : Nat → Nat × Nat := fun _ => (3, 8)

/-- The LIB height the gap loop holds before its `j`-th remaining iteration,
when it currently holds `cur` and its next `getHeight()` is call `k`. -/
def libSeq (statuses : Nat → Nat × Nat) (cur k : Nat) : Nat → Nat
  | 0 => cur
  | j + 1 => (statuses (k + j)).1

/-- C8 witness data: a block tagged `{1, 2}`. -/
def blockW : LBlock := ⟨50, [1, 2], 0⟩

/-- C8 witness data: a transaction tagged `{1}`. -/
def txA : LTx := ⟨[1], 10⟩

/-- C8 witness data: a transaction tagged `{2}`. -/
def txB : LTx := ⟨[2], 20⟩

/-- C8 witness data: the tagged block with its two transactions, a `null`
fetch result (dropped by the `v && v.block` filter), and an untagged block
with an untagged transaction (contributing to no bucket). -/
def resultsW : List (Option (LBlock × List LTx)) :=
  [some (blockW, [txA, txB]), none, some (⟨51, [], 9⟩, [⟨[], 30⟩])]

/-- C1 witness data: the previous cycle's retained result, heights
`98, 100, 102, 104, 105`. -/
def prevW : FetchResult :=
  { blocks := [⟨98, 0⟩, ⟨100, 0⟩, ⟨102, 0⟩, ⟨104, 0⟩, ⟨105, 0⟩],
    txs := [[98], [100], [102], [104], [105]] }

/-- C1 witness data: the fresh result — finalized prefix `[100]`, fresh
suffix `[106, 107]`. -/
def resW : FetchResult :=
  { blocks := [⟨100, 1⟩, ⟨106, 1⟩, ⟨107, 1⟩],
    txs := [[1000], [1060], [1070]] }

/-! ## Helper lemmas -/

lemma dedup_length_lt_iff (l : List Nat) :
    l.dedup.length < l.length ↔ ¬ l.Nodup := by
  constructor
  · intro h hnd
    rw [List.dedup_eq_self.mpr hnd] at h
    exact lt_irrefl _ h
  · intro hnd
    rcases Nat.lt_or_ge l.dedup.length l.length with h | h
    · exact h
    · exfalso
      have hsub := l.dedup_sublist
      have heq := hsub.eq_of_length (le_antisymm hsub.length_le h)
      exact hnd (heq ▸ l.nodup_dedup)

lemma chunksOf_nil (limit : Nat) : chunksOf limit ([] : List α) = [] := by
  rw [chunksOf]

lemma chunksOf_flatten (limit : Nat) (hl : limit ≠ 0) (l : List α) :
    (chunksOf limit l).flatten = l := by
  have aux : ∀ (n : Nat) (l : List α), l.length ≤ n →
      (chunksOf limit l).flatten = l := by
    intro n
    induction n with
    | zero =>
      intro l h0
      have : l = [] := List.eq_nil_of_length_eq_zero (Nat.le_zero.mp h0)
      subst this
      rw [chunksOf_nil]
      rfl
    | succ n ih =>
      intro l hlen
      cases l with
      | nil => rw [chunksOf_nil]; rfl
      | cons a rest =>
        rw [chunksOf, dif_neg hl, List.flatten_cons, ih ((a :: rest).drop limit)
          (by simp only [List.length_drop, List.length_cons] at *; omega),
          List.take_append_drop]
  exact aux l.length l le_rfl

lemma chunksOf_chunk_length_le (limit : Nat) (hl : limit ≠ 0) (l : List α) :
    ∀ c ∈ chunksOf limit l, c.length ≤ limit := by
  have aux : ∀ (n : Nat) (l : List α), l.length ≤ n →
      ∀ c ∈ chunksOf limit l, c.length ≤ limit := by
    intro n
    induction n with
    | zero =>
      intro l h0
      have : l = [] := List.eq_nil_of_length_eq_zero (Nat.le_zero.mp h0)
      subst this
      intro c hc
      simp [chunksOf] at hc
    | succ n ih =>
      intro l hlen
      cases l with
      | nil => intro c hc; simp [chunksOf] at hc
      | cons a rest =>
        rw [chunksOf, dif_neg hl]
        intro c hc
        rcases List.mem_cons.mp hc with h | h
        · subst h
          exact le_trans (List.length_take_le _ _) le_rfl
        · exact ih ((a :: rest).drop limit)
            (by simp only [List.length_drop, List.length_cons] at *; omega) c h
  exact aux l.length l le_rfl

lemma queryAllBlocksAndTxs_eq (q : Nat → Block × List Nat) (limit : Nat)
    (hl : limit ≠ 0) (heights : List Nat) :
    queryAllBlocksAndTxs q limit heights =
      { blocks := heights.map (fun h => (q h).1),
        txs := heights.map (fun h => (q h).2) } := by
  unfold queryAllBlocksAndTxs
  have hflat : ((chunksOf limit heights).map (fun c => c.map q)).flatten
      = heights.map q := by
    rw [← List.map_flatten, chunksOf_flatten limit hl]
  simp only [hflat, List.map_map]
  rfl

lemma missingChunks_flatten (m : Nat) (hm : m ≠ 0) (l : List α) :
    (missingChunks m l).flatten = l := by
  have aux : ∀ (n : Nat) (l : List α), l.length / m = n →
      ((List.range (n + 1)).map (fun k => (l.drop (k * m)).take m)).flatten
        = l := by
    intro n
    induction n with
    | zero =>
      intro l hd
      have hL : l.length < m :=
        (Nat.div_eq_zero_iff (Nat.pos_of_ne_zero hm)).mp hd
      have h1 : List.range 1 = [0] := by decide
      rw [h1]
      simp [List.take_of_length_le hL.le]
    | succ n ih =>
      intro l hd
      have hmL : m ≤ l.length := by
        by_contra hcon
        push_neg at hcon
        rw [Nat.div_eq_of_lt hcon] at hd
        exact Nat.succ_ne_zero n hd.symm
      have hdrop : (l.drop m).length / m = n := by
        rw [List.length_drop]
        have : l.length = (l.length - m) + m := by omega
        rw [this, Nat.add_div_right _ (Nat.pos_of_ne_zero hm)] at hd
        omega
      have htail := ih (l.drop m) hdrop
      rw [List.range_succ_eq_map, List.map_cons, List.flatten_cons,
        List.map_map]
      have hfun : ((fun k => (l.drop (k * m)).take m) ∘ Nat.succ)
          = fun k => ((l.drop m).drop (k * m)).take m := by
        funext k
        simp only [Function.comp_apply, List.drop_drop]
        congr 2
        rw [Nat.succ_mul]
        exact Nat.add_comm _ _
      rw [hfun, htail]
      simp [List.take_append_drop]
  exact aux (l.length / m) l rfl

lemma missingChunks_getLast (m : Nat) (hm : m ≠ 0) (l : List α)
    (hdvd : m ∣ l.length) :
    (missingChunks m l).getLast? = some [] := by
  unfold missingChunks
  rw [List.range_succ, List.map_append]
  simp only [List.map_cons, List.map_nil]
  rw [List.getLast?_concat]
  congr 1
  rw [Nat.div_mul_cancel hdvd, List.drop_length, List.take_nil]

lemma libSeq_shift (statuses : Nat → Nat × Nat) (cur k : Nat) (j : Nat) :
    libSeq statuses cur k (j + 1) = libSeq statuses (statuses k).1 (k + 1) j := by
  cases j with
  | zero => rfl
  | succ j' =>
    show (statuses (k + (j' + 1))).1 = (statuses (k + 1 + j')).1
    congr 2
    omega

lemma libSeq_top (statuses : Nat → Nat × Nat) (j : Nat) :
    libSeq statuses (statuses 0).1 1 j = (statuses j).1 := by
  cases j with
  | zero => rfl
  | succ j' =>
    show (statuses (1 + j')).1 = (statuses (j' + 1)).1
    congr 2
    omega

/-- Invariant of the gap loop: every emitted chunk is tagged with the phase's
initial best height `b0`; the chunks' LIB tags follow the status reads (the
`j`-th remaining chunk carries the LIB of the latest read before its fetch);
and the final `currentHeight` is the LIB of the loop's last read. -/
lemma gapLoop_spec (statuses : Nat → Nat × Nat) (startHeight m b0 : Nat) :
    ∀ (fuel i cur k : Nat) (cs : List GapChunk) (fin : Nat),
      gapLoop statuses startHeight m b0 fuel i cur k = some (cs, fin) →
      (∀ c ∈ cs, c.bestHeight = b0)
      ∧ cs.map GapChunk.LIBHeight
          = (List.range cs.length).map (libSeq statuses cur k)
      ∧ fin = libSeq statuses cur k cs.length := by
  intro fuel
  induction fuel with
  | zero => intro i cur k cs fin h; simp [gapLoop] at h
  | succ fuel ih =>
    intro i cur k cs fin h
    rw [gapLoop] at h
    split at h
    · cases hrec : gapLoop statuses startHeight m b0 fuel (i + m)
        (statuses k).1 (k + 1) with
      | none => rw [hrec] at h; exact absurd h (by simp)
      | some p =>
        obtain ⟨cs', fin'⟩ := p
        rw [hrec] at h
        have h' := Option.some.inj h
        rw [Prod.mk.injEq] at h'
        obtain ⟨hcs, hfin⟩ := h'
        subst hcs
        subst hfin
        obtain ⟨ihb, ihm, ihf⟩ := ih (i + m) (statuses k).1 (k + 1) cs' fin' hrec
        refine ⟨?_, ?_, ?_⟩
        · intro c hc
          rcases List.mem_cons.mp hc with hc | hc
          · rw [hc]
          · exact ihb c hc
        · simp only [List.map_cons, List.length_cons]
          rw [List.range_succ_eq_map, List.map_cons, List.map_map]
          have hcomp : (libSeq statuses cur k ∘ Nat.succ)
              = libSeq statuses (statuses k).1 (k + 1) :=
            funext (libSeq_shift statuses cur k)
          rw [hcomp, ← ihm]
          rfl
        · simp only [List.length_cons]
          rw [libSeq_shift, ← ihf]
    · have h' := Option.some.inj h
      rw [Prod.mk.injEq] at h'
      obtain ⟨hcs, hfin⟩ := h'
      subst hcs
      subst hfin
      exact ⟨fun c hc => absurd hc (List.not_mem_nil c), rfl, rfl⟩

lemma pushTag_some (tag : Nat) (tb : TaggedBlock) :
    ∀ acc : Buckets, tag ∈ acc.map Prod.fst →
      ∃ acc', pushTag tag tb acc = some acc' := by
  intro acc
  induction acc with
  | nil => intro h; simp at h
  | cons p rest ih =>
    obtain ⟨t, bs⟩ := p
    intro h
    by_cases ht : t = tag
    · exact ⟨(t, bs ++ [tb]) :: rest, by rw [pushTag, if_pos ht]⟩
    · have hmem : tag ∈ rest.map Prod.fst := by
        rw [List.map_cons] at h
        rcases List.mem_cons.mp h with h' | h'
        · exact absurd h'.symm ht
        · exact h'
      obtain ⟨r, hr⟩ := ih hmem
      exact ⟨(t, bs) :: r, by rw [pushTag, if_neg ht, hr]; rfl⟩

lemma pushTag_spec (tag : Nat) (tb : TaggedBlock) :
    ∀ (acc acc' : Buckets), pushTag tag tb acc = some acc' →
      acc'.map Prod.fst = acc.map Prod.fst
      ∧ ∀ u, acc'.lookup u =
          if u = tag then (acc.lookup u).map (fun bs => bs ++ [tb])
          else acc.lookup u := by
  intro acc
  induction acc with
  | nil => intro acc' h; simp [pushTag] at h
  | cons p rest ih =>
    obtain ⟨t, bs⟩ := p
    intro acc' h
    rw [pushTag] at h
    by_cases ht : t = tag
    · subst ht
      rw [if_pos rfl] at h
      have hacc := Option.some.inj h
      subst hacc
      refine ⟨by simp, ?_⟩
      intro u
      by_cases hu : u = t
      · subst hu
        simp [List.lookup_cons]
      · have hbe : (u == t) = false := by simp [hu]
        simp [List.lookup_cons, hbe, hu]
    · rw [if_neg ht] at h
      cases hrec : pushTag tag tb rest with
      | none => rw [hrec] at h; exact absurd h (by simp)
      | some r =>
        rw [hrec] at h
        have hacc := Option.some.inj h
        subst hacc
        obtain ⟨ihk, ihl⟩ := ih r hrec
        refine ⟨by simp [ihk], ?_⟩
        intro u
        by_cases hu : u = t
        · subst hu
          rw [if_neg ht]
          simp [List.lookup_cons]
        · have hbe : (u == t) = false := by simp [hu]
          simp only [List.lookup_cons, hbe]
          simpa using ihl u

lemma pushTags_spec (b : LBlock) (transactions : List LTx) :
    ∀ (tags : List Nat) (acc : Buckets), tags.Nodup →
      (∀ t ∈ tags, t ∈ acc.map Prod.fst) →
      ∃ acc',
        tags.foldlM (fun acc tag =>
          pushTag tag
            ⟨b, transactions.filter (fun tx => tag ∈ tx.scanTags)⟩ acc) acc
          = some acc'
        ∧ acc'.map Prod.fst = acc.map Prod.fst
        ∧ ∀ u, acc'.lookup u =
            if u ∈ tags
            then (acc.lookup u).map
              (fun bs => bs ++ [taggedFor u (b, transactions)])
            else acc.lookup u := by
  intro tags
  induction tags with
  | nil =>
    intro acc _ _
    exact ⟨acc, rfl, rfl, fun u => by simp⟩
  | cons t ts ih =>
    intro acc hnd hsub
    have hnt : t ∉ ts := (List.nodup_cons.mp hnd).1
    have hnd' : ts.Nodup := (List.nodup_cons.mp hnd).2
    obtain ⟨a₁, ha₁⟩ := pushTag_some t
      ⟨b, transactions.filter (fun tx => t ∈ tx.scanTags)⟩ acc
      (hsub t (List.mem_cons_self t ts))
    obtain ⟨hk₁, hl₁⟩ := pushTag_spec t _ acc a₁ ha₁
    obtain ⟨acc', hfold, hk, hl⟩ := ih a₁ hnd'
      (fun u hu => hk₁ ▸ hsub u (List.mem_cons_of_mem t hu))
    refine ⟨acc', ?_, hk.trans hk₁, ?_⟩
    · rw [List.foldlM_cons, ha₁]
      exact hfold
    · intro u
      rcases Decidable.em (u = t) with hu | hu
      · subst hu
        rw [hl u, if_neg hnt, hl₁ u, if_pos rfl, if_pos (List.mem_cons_self u ts)]
        rfl
      · rcases Decidable.em (u ∈ ts) with hu' | hu'
        · rw [hl u, if_pos hu', hl₁ u, if_neg hu,
            if_pos (List.mem_cons_of_mem t hu')]
        · rw [hl u, if_neg hu', hl₁ u, if_neg hu,
            if_neg (by simp [hu, hu'])]

lemma bloomFold_spec :
    ∀ (rs : List (LBlock × List LTx)) (acc : Buckets),
      (∀ r ∈ rs, ∀ t ∈ r.1.scanTags, t ∈ acc.map Prod.fst) →
      (∀ r ∈ rs, r.1.scanTags.Nodup) →
      ∃ acc', rs.foldlM (fun acc r => pushBlock r.1 r.2 acc) acc = some acc'
        ∧ acc'.map Prod.fst = acc.map Prod.fst
        ∧ ∀ u, acc'.lookup u =
            (acc.lookup u).map (fun bs => bs ++ bucketFor u rs) := by
  intro rs
  induction rs with
  | nil =>
    intro acc _ _
    refine ⟨acc, rfl, rfl, fun u => ?_⟩
    cases h : acc.lookup u <;> simp [bucketFor]
  | cons r rs ih =>
    intro acc hsub hbnd
    obtain ⟨a₁, ha₁, hk₁, hl₁⟩ := pushTags_spec r.1 r.2 r.1.scanTags acc
      (hbnd r (List.mem_cons_self r rs))
      (hsub r (List.mem_cons_self r rs))
    obtain ⟨acc', hfold, hk, hl⟩ := ih a₁
      (fun r' hr' t ht => hk₁ ▸ hsub r' (List.mem_cons_of_mem r hr') t ht)
      (fun r' hr' => hbnd r' (List.mem_cons_of_mem r hr'))
    have hpush : pushBlock r.1 r.2 acc = some a₁ := ha₁
    refine ⟨acc', ?_, hk.trans hk₁, ?_⟩
    · rw [List.foldlM_cons, hpush]
      exact hfold
    · intro u
      rw [hl u, hl₁ u]
      rcases Decidable.em (u ∈ r.1.scanTags) with hu | hu
      · rw [if_pos hu]
        cases h : acc.lookup u with
        | none => rfl
        | some bs =>
          simp only [Option.map_some']
          congr 1
          rw [List.append_assoc]
          congr 1
          simp [bucketFor, hu]
      · rw [if_neg hu]
        cases h : acc.lookup u with
        | none => rfl
        | some bs =>
          simp only [Option.map_some']
          congr 2
          simp [bucketFor, hu]

lemma lookup_init_buckets (tags : List Nat) :
    ∀ t ∈ tags,
      (tags.map (fun t => (t, ([] : List TaggedBlock)))).lookup t = some [] := by
  induction tags with
  | nil => intro t ht; simp at ht
  | cons a ts ih =>
    intro t ht
    by_cases h : t = a
    · subst h
      simp [List.lookup_cons]
    · have hbe : (t == a) = false := by simp [h]
      have ht' : t ∈ ts := by
        rcases List.mem_cons.mp ht with h' | h'
        · exact absurd h' h
        · exact h'
      simp [List.lookup_cons, hbe]
      exact ih t ht'

lemma keptPairs_eq_zip (L B : Nat) :
    ∀ (bs : List Block) (ts : List (List Nat)), bs.length = ts.length →
      keptPairs L B bs ts
        = (bs.zip ts).filter
            (fun p => decide (L < p.1.height ∧ p.1.height ≤ B)) := by
  intro bs
  induction bs with
  | nil => intro ts _; simp [keptPairs]
  | cons b bs' ih =>
    intro ts h
    cases ts with
    | nil => simp at h
    | cons t ts' =>
      simp only [keptPairs, List.tail_cons, List.headD_cons,
        List.zip_cons_cons, List.filter_cons]
      by_cases hc : L < b.height ∧ b.height ≤ B
      · rw [if_pos hc, if_pos (decide_eq_true hc), ih ts' (by simpa using h)]
      · rw [if_neg hc, if_neg (fun hdt => hc (of_decide_eq_true hdt)),
          ih ts' (by simpa using h)]

lemma keptPairs_fst_sublist (L B : Nat) :
    ∀ (bs : List Block) (ts : List (List Nat)),
      List.Sublist ((keptPairs L B bs ts).map Prod.fst) bs := by
  intro bs
  induction bs with
  | nil => intro ts; simp [keptPairs]
  | cons b bs' ih =>
    intro ts
    simp only [keptPairs]
    by_cases hc : L < b.height ∧ b.height ≤ B
    · rw [if_pos hc]
      simp only [List.map_cons]
      exact List.Sublist.cons₂ b (ih ts.tail)
    · rw [if_neg hc]
      exact List.Sublist.cons b (ih ts.tail)

lemma keptPairs_bounds (L B : Nat) :
    ∀ (bs : List Block) (ts : List (List Nat)) (p : Block × List Nat),
      p ∈ keptPairs L B bs ts → L < p.1.height ∧ p.1.height ≤ B := by
  intro bs
  induction bs with
  | nil => intro ts p hp; simp [keptPairs] at hp
  | cons b bs' ih =>
    intro ts p hp
    simp only [keptPairs] at hp
    by_cases hc : L < b.height ∧ b.height ≤ B
    · rw [if_pos hc] at hp
      rcases List.mem_cons.mp hp with hp | hp
      · rw [hp]
        exact hc
      · exact ih ts.tail p hp
    · rw [if_neg hc] at hp
      exact ih ts.tail p hp

/-! ## Claims -/

/-- C8: LISTENER-mode bucket partition.  Assuming distinct listener tags (as
validated at construction) and fetch results whose tag annotations are
membership lists over the configured tags (the collaborator computes them
from the listeners it is passed), the bucket of every listener tag `t` holds
exactly the fetched blocks whose `scanTags` contain `t`, in fetch order, each
annotated with exactly the transactions whose `scanTags` contain `t`; a block
or transaction without a matching tag therefore contributes to no bucket. -/
theorem c8_listener_partition (tags : List Nat)
    (results : List (Option (LBlock × List LTx)))
    (hnd : tags.Nodup)
    (hsub : ∀ r ∈ results.filterMap id, ∀ t ∈ r.1.scanTags, t ∈ tags)
    (hbnd : ∀ r ∈ results.filterMap id, r.1.scanTags.Nodup) :
    ∃ bks, bloomBuckets tags results = some bks
      ∧ bks.map Prod.fst = tags
      ∧ (∀ t ∈ tags, bks.lookup t
          = some (bucketFor t (results.filterMap id)))
      ∧ (∀ t ∈ tags, ∀ tb ∈ bucketFor t (results.filterMap id),
          t ∈ tb.block.scanTags
          ∧ ∀ tx ∈ tb.transactionList, t ∈ tx.scanTags) := by
  have hkeys0 : ((tags.map (fun t => (t, ([] : List TaggedBlock)))).map
      Prod.fst) = tags := by
    rw [List.map_map]
    have hid : (Prod.fst ∘ fun t : Nat => (t, ([] : List TaggedBlock))) = id :=
      rfl
    rw [hid, List.map_id]
  obtain ⟨bks, hfold, hkeys, hlook⟩ := bloomFold_spec (results.filterMap id)
    (tags.map (fun t => (t, [])))
    (fun r hr t ht => by rw [hkeys0]; exact hsub r hr t ht)
    hbnd
  refine ⟨bks, ?_, hkeys.trans hkeys0, ?_, ?_⟩
  · rw [bloomBuckets]
    exact hfold
  · intro t ht
    rw [hlook t, lookup_init_buckets tags t ht]
    simp
  · intro t _ tb htb
    rw [bucketFor] at htb
    obtain ⟨r, hr, hrfl⟩ := List.mem_map.mp htb
    subst hrfl
    constructor
    · exact of_decide_eq_true (List.mem_filter.mp hr).2
    · intro tx htx
      exact of_decide_eq_true (List.mem_filter.mp htx).2

/-- C8 witness: listeners `{1, 2}`, block tagged `{1, 2}` with one
transaction tagged `{1}` and one tagged `{2}`: the block lands in both
buckets, each copy annotated with only its own transaction; the untagged
block and transaction land nowhere. -/
theorem c8_listener_partition_witness :
    (bloomBuckets [1, 2] resultsW).map (fun bks => bks.lookup 1)
      = some (some [⟨blockW, [txA]⟩])
    ∧ (bloomBuckets [1, 2] resultsW).map (fun bks => bks.lookup 2)
      = some (some [⟨blockW, [txB]⟩]) := by
  obtain ⟨bks, hbk, _, hlook, _⟩ :=
    c8_listener_partition [1, 2] resultsW (by decide) (by decide) (by decide)
  rw [hbk]
  constructor
  · rw [Option.map_some']
    rw [hlook 1 (by decide)]
    decide
  · rw [Option.map_some']
    rw [hlook 2 (by decide)]
    decide

/-- C1: `mergeResult` in ALL mode with a non-empty previous result produces
exactly `[finalized prefix] ++ [retained previous blocks with
libHeight < h ≤ lastBestHeight, in original order] ++ [fresh suffix]`, with
`txs` permuted identically; and under the claim's preconditions (prefix
heights ≤ libHeight and ascending, previous result ascending, suffix heights
> max(lastBestHeight, libHeight) and ascending) the merged blocks are
strictly ascending in height, with no duplicated height. -/
theorem c1_merge_concat_ordered (prev res : FetchResult)
    (preLen afterLen LIB lastBest : Nat)
    (hne : prev.blocks ≠ [])
    (hlen : prev.blocks.length = prev.txs.length) :
    (mergeResult prev res preLen afterLen LIB lastBest).blocks
      = res.blocks.take preLen
        ++ ((prev.blocks.zip prev.txs).filter
              (fun p => decide (LIB < p.1.height ∧ p.1.height ≤ lastBest))).map
            Prod.fst
        ++ res.blocks.drop preLen
    ∧ (mergeResult prev res preLen afterLen LIB lastBest).txs
      = res.txs.take preLen
        ++ ((prev.blocks.zip prev.txs).filter
              (fun p => decide (LIB < p.1.height ∧ p.1.height ≤ lastBest))).map
            Prod.snd
        ++ res.txs.drop preLen
    ∧ ((∀ b ∈ res.blocks.take preLen, b.height ≤ LIB) →
        ((res.blocks.take preLen).map Block.height).Pairwise (· < ·) →
        (prev.blocks.map Block.height).Pairwise (· < ·) →
        (∀ b ∈ res.blocks.drop preLen, max lastBest LIB < b.height) →
        ((res.blocks.drop preLen).map Block.height).Pairwise (· < ·) →
        ((mergeResult prev res preLen afterLen LIB lastBest).blocks.map
            Block.height).Pairwise (· < ·)
        ∧ ((mergeResult prev res preLen afterLen LIB lastBest).blocks.map
            Block.height).Nodup) := by
  have hne' : ¬ prev.blocks.length = 0 := by
    simpa [List.length_eq_zero] using hne
  have hmb : (mergeResult prev res preLen afterLen LIB lastBest).blocks
      = res.blocks.take preLen
        ++ (keptPairs LIB lastBest prev.blocks prev.txs).map Prod.fst
        ++ res.blocks.drop preLen := by
    rw [mergeResult, if_neg hne']
  have hmt : (mergeResult prev res preLen afterLen LIB lastBest).txs
      = res.txs.take preLen
        ++ (keptPairs LIB lastBest prev.blocks prev.txs).map Prod.snd
        ++ res.txs.drop preLen := by
    rw [mergeResult, if_neg hne']
  refine ⟨?_, ?_, ?_⟩
  · rw [hmb, keptPairs_eq_zip LIB lastBest prev.blocks prev.txs hlen]
  · rw [hmt, keptPairs_eq_zip LIB lastBest prev.blocks prev.txs hlen]
  · intro hpreB hpreS hprevS hsufB hsufS
    have hp : ((mergeResult prev res preLen afterLen LIB lastBest).blocks.map
        Block.height).Pairwise (· < ·) := by
      rw [hmb, List.map_append, List.map_append, List.pairwise_append]
      refine ⟨?_, hsufS, ?_⟩
      · rw [List.pairwise_append]
        refine ⟨hpreS, ?_, ?_⟩
        · have hsub := (keptPairs_fst_sublist LIB lastBest prev.blocks
            prev.txs).map Block.height
          exact hprevS.sublist hsub
        · intro x hx y hy
          obtain ⟨bx, hbx, hxe⟩ := List.mem_map.mp hx
          have hxb := hpreB bx hbx
          obtain ⟨by', hby, hye⟩ := List.mem_map.mp hy
          obtain ⟨py, hpy, hpe⟩ := List.mem_map.mp hby
          have hyb := keptPairs_bounds LIB lastBest prev.blocks prev.txs
            py hpy
          subst hxe
          subst hye
          subst hpe
          omega
      · intro x hx y hy
        obtain ⟨by', hby, hye⟩ := List.mem_map.mp hy
        have hyb := hsufB by' hby
        subst hye
        rcases List.mem_append.mp hx with hx | hx
        · obtain ⟨bx, hbx, hxe⟩ := List.mem_map.mp hx
          have hxb := hpreB bx hbx
          subst hxe
          omega
        · obtain ⟨bx, hbx, hxe⟩ := List.mem_map.mp hx
          obtain ⟨px, hpx, hpe⟩ := List.mem_map.mp hbx
          have hxb := keptPairs_bounds LIB lastBest prev.blocks prev.txs
            px hpx
          subst hxe
          subst hpe
          omega
    exact ⟨hp, hp.imp (fun h => Nat.ne_of_lt h)⟩

/-- C1 witness: `libHeight = 100`, `lastBestHeight = 105`, previous blocks at
heights `{98,100,102,104,105}`, fresh result `[100] ++ [106,107]` with
`finalizedCount = 1`: the merge retains `{102,104,105}`, keeps `txs` aligned,
and is strictly ascending with no duplicate height. -/
theorem c1_merge_concat_ordered_witness :
    (mergeResult prevW resW 1 2 100 105).blocks.map Block.height
      = [100, 102, 104, 105, 106, 107]
    ∧ (mergeResult prevW resW 1 2 100 105).txs
      = [[1000], [102], [104], [105], [1060], [1070]]
    ∧ ((mergeResult prevW resW 1 2 100 105).blocks.map
        Block.height).Pairwise (· < ·)
    ∧ ((mergeResult prevW resW 1 2 100 105).blocks.map Block.height).Nodup := by
  obtain ⟨h1, h2, h3⟩ :=
    c1_merge_concat_ordered prevW resW 1 2 100 105 (by decide) (by decide)
  obtain ⟨hp, hnd⟩ := h3 (by decide) (by decide) (by decide) (by decide)
    (by decide)
  exact ⟨by decide, by decide, hp, hnd⟩

/-- C7: the ALL-mode batch fetcher partitions the input heights into
consecutive chunks of at most `concurrentQueryLimit` heights (processed one
after another, their results concatenated in chunk order), and the resulting
`blocks` and `txs` are index-aligned images of the input height list — in
particular ascending in height whenever the input is ascending and the
collaborator returns the block of the requested height. -/
theorem c7_batch_fetch_alignment (q : Nat → Block × List Nat) (limit : Nat)
    (heights : List Nat) (hl : 0 < limit) :
    (∀ c ∈ chunksOf limit heights, c.length ≤ limit)
    ∧ (chunksOf limit heights).flatten = heights
    ∧ (queryAllBlocksAndTxs q limit heights).blocks
        = heights.map (fun h => (q h).1)
    ∧ (queryAllBlocksAndTxs q limit heights).txs
        = heights.map (fun h => (q h).2)
    ∧ ((∀ h, (q h).1.height = h) → heights.Pairwise (· < ·) →
        ((queryAllBlocksAndTxs q limit heights).blocks.map Block.height).Pairwise
          (· < ·)) := by
  have hl' : limit ≠ 0 := Nat.pos_iff_ne_zero.mp hl
  refine ⟨chunksOf_chunk_length_le limit hl' heights,
    chunksOf_flatten limit hl' heights, ?_, ?_, ?_⟩
  · rw [queryAllBlocksAndTxs_eq q limit hl' heights]
  · rw [queryAllBlocksAndTxs_eq q limit hl' heights]
  · intro hq hsorted
    rw [queryAllBlocksAndTxs_eq q limit hl' heights]
    simp only [List.map_map]
    have : (Block.height ∘ fun h => (q h).1) = fun h => h := funext hq
    rw [this, List.map_id']
    exact hsorted

/-- C7 witness: three heights, limit `2`: chunks `[[3,5],[9]]`, output aligned
and ascending. -/
theorem c7_batch_fetch_alignment_witness :
    (∀ c ∈ chunksOf 2 [3, 5, 9], c.length ≤ 2)
    ∧ (chunksOf 2 [3, 5, 9]).flatten = [3, 5, 9]
    ∧ (queryAllBlocksAndTxs qW 2 [3, 5, 9]).blocks
        = [⟨3, 103⟩, ⟨5, 105⟩, ⟨9, 109⟩]
    ∧ (queryAllBlocksAndTxs qW 2 [3, 5, 9]).txs = [[3], [5], [9]]
    ∧ ((queryAllBlocksAndTxs qW 2 [3, 5, 9]).blocks.map Block.height).Pairwise
        (· < ·) := by
  obtain ⟨h1, h2, h3, h4, h5⟩ :=
    c7_batch_fetch_alignment qW 2 [3, 5, 9] (by decide)
  exact ⟨h1, h2, by rw [h3]; rfl, by rw [h4]; rfl,
    h5 (fun h => rfl) (by decide)⟩

/-- C9: `queryMissingHeight` with a list of length `L` and `maxInsert = m`
performs exactly `⌊L/m⌋ + 1` inserts; the chunks concatenate back to the
input list (each element fetched and inserted exactly once, in list order at
chunk granularity); when `m ∣ L` — including the default empty list — the
final chunk is empty; and each inserted `FetchResult` is the aligned image of
its chunk. -/
theorem c9_missing_backfill (q : Nat → Block × List Nat) (limit m : Nat)
    (l : List Nat) (hm : 0 < m) (hlim : 0 < limit) :
    (queryMissingHeight q limit m l).length = l.length / m + 1
    ∧ (missingChunks m l).flatten = l
    ∧ (m ∣ l.length → (missingChunks m l).getLast? = some [])
    ∧ queryMissingHeight q limit m l
        = (missingChunks m l).map (fun c =>
            { blocks := c.map (fun h => (q h).1),
              txs := c.map (fun h => (q h).2) }) := by
  have hm' : m ≠ 0 := Nat.pos_iff_ne_zero.mp hm
  have hlim' : limit ≠ 0 := Nat.pos_iff_ne_zero.mp hlim
  refine ⟨?_, missingChunks_flatten m hm' l,
    missingChunks_getLast m hm' l, ?_⟩
  · simp [queryMissingHeight, missingChunks]
  · unfold queryMissingHeight
    exact List.map_congr_left (fun c _ => queryAllBlocksAndTxs_eq q limit hlim' c)

/-- C9 witness: list `[10,11,12,13]`, `maxInsert = 2`: three inserts, the
last one built from an empty height list. -/
theorem c9_missing_backfill_witness :
    (queryMissingHeight qW 3 2 [10, 11, 12, 13]).length = 3
    ∧ (missingChunks 2 [10, 11, 12, 13]).flatten = [10, 11, 12, 13]
    ∧ (missingChunks 2 ([10, 11, 12, 13] : List Nat)).getLast? = some []
    ∧ (queryMissingHeight qW 3 2 [10, 11, 12, 13]).getLast?
        = some { blocks := [], txs := [] } := by
  obtain ⟨h1, h2, h3, h4⟩ :=
    c9_missing_backfill qW 3 2 [10, 11, 12, 13] (by decide) (by decide)
  refine ⟨h1, h2, h3 (by decide), ?_⟩
  rw [h4]
  rfl

/-- C6 counterexample: with `scanMode = all` and the duplicated tag list
`[0, 0]`, `makeConfig` does **not** throw — the duplicate check is guarded by
`scanMode === 'listener'`, so it is not raised "regardless of the configured
scanMode" as the claim states. -/
theorem c6_counterexample_all_mode :
    makeConfigThrowsDuplicate ScanMode.all [0, 0] = false
      ∧ ¬ ([0, 0] : List Nat).Nodup := by
  decide

/-- C6 (amended): construction throws the duplicated-listener-tags error iff
`scanMode` is `listener` **and** the tag list has a duplicate; in ALL mode the
check never fires, and with distinct tags it passes in both modes. -/
theorem c6_duplicate_check_iff (mode : ScanMode) (tags : List Nat) :
    makeConfigThrowsDuplicate mode tags = true ↔
      mode = ScanMode.listener ∧ ¬ tags.Nodup := by
  simp [makeConfigThrowsDuplicate, dedup_length_lt_iff]

/-- C4: the skip heuristic of the polling loop.  If `lastBestHeight` is set
(JavaScript-truthy: non-`null`, nonzero) and the newly observed best height
minus it is at most `⌈interval · minedSpeed · loopCoef / 1000⌉`, the tick is
skipped: no height is fetched, nothing is inserted and the cursor state is
unchanged.  Otherwise (threshold exceeded, or `lastBestHeight` unset) the
tick proceeds and produces an insert.  With the default configuration
`interval = 4000`, `minedSpeed = 2`, `loopCoef = 0.6` the threshold is `5`. -/
theorem c4_skip_heuristic (c : LoopConfig) (q : Nat → Block × List Nat)
    (st : LoopState) (LIBHeight currentHeight : Nat) :
    (jsTruthyHeight st.lastBestHeight = true →
      (currentHeight : Int) - (st.lastBestHeight.getD 0 : Nat) ≤
        (loopThreshold c : Int) →
      loopTick c q st LIBHeight currentHeight = (st, [], none))
    ∧ ((jsTruthyHeight st.lastBestHeight = false ∨
        (loopThreshold c : Int) <
          (currentHeight : Int) - (st.lastBestHeight.getD 0 : Nat)) →
      ∃ r, (loopTick c q st LIBHeight currentHeight).2.2 = some r)
    ∧ loopThreshold ⟨4000, 2, 3, 5, 40⟩ = 5 := by
  refine ⟨?_, ?_, by decide⟩
  · intro ht hd
    rw [loopTick, if_pos (by simp [skipCond, ht, hd])]
  · intro h
    rw [loopTick, if_neg ?_]
    · exact ⟨_, rfl⟩
    · rcases h with h | h
      · simp [skipCond, h]
      · simp only [skipCond, Bool.and_eq_true, decide_eq_true_eq, not_and]
        intro _
        omega

/-- C4 witness: with the default tuning, a previous best height `20` and a
new best height `25` (delta `5`) the tick is skipped and the state is
untouched, while a new best height `26` (delta `6`) proceeds and inserts. -/
theorem c4_skip_heuristic_witness :
    (loopTick ⟨4000, 2, 3, 5, 40⟩ (fun h => (⟨h, 0⟩, []))
        ⟨10, some 20, ⟨[], []⟩⟩ 22 25) =
      (⟨10, some 20, ⟨[], []⟩⟩, [], none)
    ∧ ∃ r, (loopTick ⟨4000, 2, 3, 5, 40⟩ (fun h => (⟨h, 0⟩, []))
        ⟨10, some 20, ⟨[], []⟩⟩ 22 26).2.2 = some r := by
  constructor
  · exact (c4_skip_heuristic ⟨4000, 2, 3, 5, 40⟩ (fun h => (⟨h, 0⟩, []))
      ⟨10, some 20, ⟨[], []⟩⟩ 22 25).1 (by decide) (by decide)
  · exact (c4_skip_heuristic ⟨4000, 2, 3, 5, 40⟩ (fun h => (⟨h, 0⟩, []))
      ⟨10, some 20, ⟨[], []⟩⟩ 22 26).2.1 (Or.inr (by decide))

/-- C10: on a tick that is not skipped, if the observed best height does not
exceed `currentQueries` (the tip regressed or stalled), the planned height
list is empty — `new Array(heightsLength < 0 ? 0 : heightsLength)` clamps the
negative length — and the tick still completes, fetching an empty height set
and issuing an insert. -/
theorem c10_tip_regression (c : LoopConfig) (q : Nat → Block × List Nat)
    (st : LoopState) (LIBHeight currentHeight : Nat)
    (hskip : skipCond c st currentHeight = false)
    (hle : currentHeight ≤ st.currentQueries) :
    (loopTick c q st LIBHeight currentHeight).2.1 = []
    ∧ ((loopTick c q st LIBHeight currentHeight).2.2).isSome = true := by
  rw [loopTick, if_neg (by simp [hskip])]
  have hlen : (if ((currentHeight : Int) - (st.currentQueries : Int) < 0)
      then 0
      else ((currentHeight : Int) - (st.currentQueries : Int)).toNat) = 0 := by
    split <;> omega
  simp only [hlen, List.range_zero, List.map_nil, List.filter_nil,
    List.append_nil, Option.isSome_some, and_true]

/-- C3 counterexample: a failure injected into the first scheduler tick (at
`getHeight()`) is thrown by the tick callback, yet the scanner keeps phase
`LOOP` (not `ERROR`), `endTimer` and `destroy` are never called, and nothing
is re-raised to the caller of `start()` — whose promise resolved when the
timer was started, before the tick ran. -/
theorem c3_counterexample_tick_failure :
    (runTick ⟨4000, 2, 3, 5, 40⟩ qW TickFailure.fGetHeight
        (startRun 1 FailPoint.never) 5 9).2 = true
    ∧ (systemRun 1 ⟨4000, 2, 3, 5, 40⟩ qW FailPoint.never
        [(TickFailure.fGetHeight, 5, 9)]).phase = ScanPhase.LOOP
    ∧ (systemRun 1 ⟨4000, 2, 3, 5, 40⟩ qW FailPoint.never
        [(TickFailure.fGetHeight, 5, 9)]).destroyCalls = 0
    ∧ (systemRun 1 ⟨4000, 2, 3, 5, 40⟩ qW FailPoint.never
        [(TickFailure.fGetHeight, 5, 9)]).endTimerCalls = 0
    ∧ (systemRun 1 ⟨4000, 2, 3, 5, 40⟩ qW FailPoint.never
        [(TickFailure.fGetHeight, 5, 9)]).startRaised = false
    ∧ ScanPhase.LOOP ≠ ScanPhase.ERROR := by
  decide

/-- C3 (amended): a failure raised during MISSING, GAP or the loop's
synchronous setup runs `start()`'s `catch`: phase becomes `ERROR`, `endTimer`
and `destroy` are each called exactly once and the failure is re-raised to
the caller.  A failure raised inside a scheduler tick callback, however,
leaves the whole scanner state unchanged — phase stays `LOOP`, neither
`endTimer` nor `destroy` runs, and nothing reaches the caller of
`start()`. -/
theorem c3_error_path_amended (startHeight : Nat) (failAt : FailPoint)
    (hf : failAt ≠ FailPoint.never) :
    startRun startHeight failAt =
      ⟨ScanPhase.ERROR, 1, 1, initLoopState startHeight, true⟩
    ∧ ∀ (c : LoopConfig) (q : Nat → Block × List Nat) (f : TickFailure)
        (s : SysState) (lib best : Nat),
        (runTick c q f s lib best).2 = true →
        (runTick c q f s lib best).1 = s := by
  constructor
  · cases failAt with
    | never => exact absurd rfl hf
    | duringMissing => rfl
    | duringGap => rfl
    | duringLoopSetup => rfl
  · intro c q f s lib best hthrew
    cases f with
    | fNone => exact absurd hthrew (by simp [runTick])
    | fGetHeight => rfl
    | fFetch =>
      cases hsc : skipCond c s.loop best with
      | true => simp [runTick, hsc] at hthrew
      | false => simp [runTick, hsc]
    | fInsert =>
      cases hsc : skipCond c s.loop best with
      | true => simp [runTick, hsc] at hthrew
      | false => simp [runTick, hsc]

/-- C3 amended witness: a failure during GAP yields the full cleanup, while a
failing insert in a tick leaves the state as it was. -/
theorem c3_error_path_amended_witness :
    startRun 1 FailPoint.duringGap =
      ⟨ScanPhase.ERROR, 1, 1, initLoopState 1, true⟩
    ∧ (runTick ⟨4000, 2, 3, 5, 40⟩ qW TickFailure.fInsert
        (startRun 1 FailPoint.never) 5 9).1 = startRun 1 FailPoint.never := by
  obtain ⟨h1, h2⟩ := c3_error_path_amended 1 FailPoint.duringGap (by decide)
  exact ⟨h1, h2 ⟨4000, 2, 3, 5, 40⟩ qW TickFailure.fInsert
    (startRun 1 FailPoint.never) 5 9 (by decide)⟩

/-- C2: evaluation of the GAP phase at the failing input.  With
`startHeight = 1`, `maxInsert = 3` and a (non-decreasing) LIB that advances
from `2` to `7` after the first chunk, the loop inserts the height lists
`[1,2]`, `[4,5,6]`, `[7]` and finishes with `currentQueries = 7` — height `3`
lies in `[startHeight, libHeight-at-completion] = [1, 7]` but is never
fetched or inserted: the loop counter advances by the full `maxInsert` even
though the first chunk was truncated by the `v <= currentHeight` filter. -/
theorem c2_gap_skips_height :
    queryGapHeight statusesC2 1 3 10
      = some ⟨[⟨[1, 2], 2, 10⟩, ⟨[4, 5, 6], 7, 10⟩, ⟨[7], 7, 10⟩], 7, some 10⟩
    ∧ ((List.range 5).all fun k => (statusesC2 k).1 ≤ (statusesC2 (k + 1)).1)
        = true
    ∧ (([(⟨[1, 2], 2, 10⟩ : GapChunk), ⟨[4, 5, 6], 7, 10⟩, ⟨[7], 7, 10⟩].map
          GapChunk.heights).flatten = [1, 2, 4, 5, 6, 7])
    ∧ (3 : Nat) ∉ ([1, 2, 4, 5, 6, 7] : List Nat)
    ∧ (1 : Nat) ≤ 3 ∧ (3 : Nat) ≤ 7 := by
  decide

/-- C5 counterexample: with `startHeight = 1`, `maxInsert = 2` and a best
height that moves from `10` to `20` right after the phase's first status
read, the second chunk is tagged `bestHeight = 10` although the status read
immediately before its fetch reported `20`, and the phase ends with
`lastBestHeight = 10` although the final status read reported `20` — the
source destructures `bestHeight` once at phase entry and never refreshes
it. -/
theorem c5_counterexample_stale_best :
    queryGapHeight statusesC5 1 2 10
      = some ⟨[⟨[1, 2], 4, 10⟩, ⟨[3, 4], 4, 10⟩], 4, some 10⟩
    ∧ (statusesC5 1).2 = 20
    ∧ (statusesC5 2).2 = 20
    ∧ ((10 : Nat) = 20 → False) := by
  decide

/-- C5 (amended): when the GAP phase runs its loop (non-empty gap) and
completes, every inserted chunk carries the LIB height of the latest status
read before its fetch, but the best height of the phase's **initial** status
read; at completion `currentQueries` is the LIB of the final status read
while `lastBestHeight` is the best height of the initial read. -/
theorem c5_gap_tags_amended (statuses : Nat → Nat × Nat)
    (startHeight m fuel : Nat) (out : GapOutcome)
    (hrun : queryGapHeight statuses startHeight m fuel = some out)
    (hgap : startHeight < (statuses 0).1) :
    (∀ c ∈ out.chunks, c.bestHeight = (statuses 0).2)
    ∧ out.lastBestHeight = some (statuses 0).2
    ∧ out.chunks.map GapChunk.LIBHeight
        = (List.range out.chunks.length).map (fun j => (statuses j).1)
    ∧ out.currentQueries = (statuses out.chunks.length).1 := by
  simp only [queryGapHeight] at hrun
  rw [if_neg (by omega)] at hrun
  cases hrec : gapLoop statuses startHeight m (statuses 0).2 fuel 0
      (statuses 0).1 1 with
  | none => rw [hrec] at hrun; exact absurd hrun (by simp)
  | some p =>
    obtain ⟨cs, fin⟩ := p
    rw [hrec] at hrun
    have hout := Option.some.inj hrun
    obtain ⟨hb, hm, hf⟩ := gapLoop_spec statuses startHeight m (statuses 0).2
      fuel 0 (statuses 0).1 1 cs fin hrec
    subst hout
    refine ⟨hb, rfl, ?_, ?_⟩
    · rw [hm]
      exact List.map_congr_left (fun j _ => libSeq_top statuses j)
    · rw [hf, libSeq_top]

/-- C5 amended witness: constant status `(LIB 3, best 8)`, `startHeight = 1`,
`maxInsert = 2`: all chunks carry best height `8`, and the phase ends with
`lastBestHeight = 8` and `currentQueries = 3`. -/
theorem c5_gap_tags_amended_witness :
    (∀ c ∈ (⟨[⟨[1, 2], 3, 8⟩, ⟨[3], 3, 8⟩], 3, some 8⟩ : GapOutcome).chunks,
      c.bestHeight = (statusesW5 0).2)
    ∧ (⟨[⟨[1, 2], 3, 8⟩, ⟨[3], 3, 8⟩], 3, some 8⟩ : GapOutcome).lastBestHeight
        = some (statusesW5 0).2
    ∧ (⟨[⟨[1, 2], 3, 8⟩, ⟨[3], 3, 8⟩], 3, some 8⟩ : GapOutcome).currentQueries
        = (statusesW5 2).1 := by
  have hrun : queryGapHeight statusesW5 1 2 10
      = some ⟨[⟨[1, 2], 3, 8⟩, ⟨[3], 3, 8⟩], 3, some 8⟩ := by decide
  obtain ⟨h1, h2, _, h4⟩ :=
    c5_gap_tags_amended statusesW5 1 2 10 _ hrun (by decide)
  exact ⟨h1, h2, h4⟩

/-- C10 witness: cursor at height `10`, chain tip reported back at `7`
(no previous best height, so the skip guard is off): the fetch covers no
height and the insert still happens. -/
theorem c10_tip_regression_witness :
    (loopTick ⟨4000, 2, 3, 5, 40⟩ (fun h => (⟨h, 0⟩, []))
        ⟨10, none, ⟨[], []⟩⟩ 7 7).2.1 = []
    ∧ ((loopTick ⟨4000, 2, 3, 5, 40⟩ (fun h => (⟨h, 0⟩, []))
        ⟨10, none, ⟨[], []⟩⟩ 7 7).2.2).isSome = true :=
  c10_tip_regression ⟨4000, 2, 3, 5, 40⟩ (fun h => (⟨h, 0⟩, []))
    ⟨10, none, ⟨[], []⟩⟩ 7 7 (by decide) (by decide)

end AelfScan
